import Mathlib

/-!
Verification of the Solend flash-loan liquidation bot
(repository `web3isnice/LiquidationFlashloans`) against its natural-language
specification.

Each part of this file embeds a piece of the TypeScript source as executable
Lean definitions and then proves or refutes the specified property over that
embedding.  `BigNumber` decimal values are embedded as exact rationals (ℚ),
millisecond timestamps and byte values as naturals, and fallible code as
`Except` or `Option`.  Network and chain effects are represented by explicit
environment records and event lists.
-/

namespace LiquidationBot

/-! ## Obligation health evaluator and candidate selection
Embeds `src/libs/processObligation.ts` (classification and selection) and
`src/config.ts` (`comparePubkeys`, `sortBorrows`). -/

/-- Bytes of a Solana public key.  `PublicKey.toBytes()` in the source always
yields exactly 32 bytes, which the comparison loop in `comparePubkeys`
relies on. -/
structure Pubkey where
  bytes : List Nat
  len32 : bytes.length = 32

instance : DecidableEq Pubkey := fun a b =>
  if h : a.bytes = b.bytes then
    isTrue (by cases a; cases b; simpa using h)
  else
    isFalse (fun hh => h (congrArg Pubkey.bytes hh))

/-- Embeds the loop body of `comparePubkeys` (`src/config.ts`): walk two byte
arrays left to right and return -1, 1 or 0 at the first difference. -/
def cmpBytes : List Nat → List Nat → Int
  | [], [] => 0
  | [], _ :: _ => 0
  | _ :: _, [] => 0
  | a :: xs, b :: ys => if a < b then -1 else if b < a then 1 else cmpBytes xs ys

/-- Embeds `comparePubkeys` from `src/config.ts`: byte-wise comparison of the
two 32-byte representations. -/
def comparePubkeys (a b : Pubkey) : Int :=
  cmpBytes a.bytes b.bytes

/-- One borrow of an obligation, as consumed by the selection code
(`Borrow` from `libs/refreshObligation` at its use sites): the borrow
reserve address, the borrow weight in basis points, the owed amount and the
valued amount. -/
structure Borrow where
  borrowReserve : Pubkey
  addedBorrowWeightBPS : Nat
  borrowAmountWads : Nat
  marketValue : ℚ
  symbol : String
  deriving DecidableEq

/-- Embeds the comparator passed to `borrows.sort` inside `sortBorrows`
(`src/config.ts`): on equal `addedBorrowWeightBPS` it returns
`comparePubkeys(b.borrowReserve, a.borrowReserve)`, otherwise
`b.addedBorrowWeightBPS.cmp(a.addedBorrowWeightBPS)` (so larger weight sorts
first). -/
def cmpBorrow (a b : Borrow) : Int :=
  if a.addedBorrowWeightBPS = b.addedBorrowWeightBPS then
    comparePubkeys b.borrowReserve a.borrowReserve
  else if a.addedBorrowWeightBPS < b.addedBorrowWeightBPS then 1 else -1

/-- The "sorts no later than" relation induced by `cmpBorrow`. -/
def borrowBefore (a b : Borrow) : Prop :=
  cmpBorrow a b ≤ 0

instance (a b : Borrow) : Decidable (borrowBefore a b) := by
  unfold borrowBefore; infer_instance

/-- Stable insertion of one element into a list ordered by `cmpBorrow`. -/
def orderedInsertBorrow (a : Borrow) : List Borrow → List Borrow
  | [] => [a]
  | b :: l => if cmpBorrow a b ≤ 0 then a :: b :: l else b :: orderedInsertBorrow a l

/-- Embeds `sortBorrows` from `src/config.ts`.  JavaScript `Array.prototype.sort`
is a stable comparison sort, and for the total preorder induced by
`cmpBorrow` every stable comparison sort returns the same list as a stable
insertion sort. -/
def sortBorrows : List Borrow → List Borrow
  | [] => []
  | b :: l => orderedInsertBorrow b (sortBorrows l)

/-- One deposit of an obligation, as consumed by the selection code. -/
structure Deposit where
  marketValue : ℚ
  symbol : String
  deriving DecidableEq, Repr

/-- Body of the `deposits.forEach` accumulation of `processObligation.ts`
(lines 70-76): adopt the current deposit when the accumulator is empty
(`!selectedDeposit`) or the deposit's market value is strictly greater than
the accumulator's (`deposit.marketValue.gt(...)`). -/
def selectDepositStep (acc : Option Deposit) (d : Deposit) : Option Deposit :=
  match acc with
  | none => some d
  | some s => if s.marketValue < d.marketValue then some d else some s

/-- Embeds the `deposits.forEach` loop of `processObligation.ts`: fold
`selectDepositStep` over the deposits starting from an empty accumulator. -/
def selectDeposit (ds : List Deposit) : Option Deposit :=
  ds.foldl selectDepositStep none

/-- Helper form of `selectDeposit` once the accumulator is non-empty. -/
def selectDepositGo (s : Deposit) : List Deposit → Deposit
  | [] => s
  | d :: l => if s.marketValue < d.marketValue then selectDepositGo d l else selectDepositGo s l

/-- Embeds `const selectedBorrow = borrows[0]` from
`src/libs/processObligation.ts` (line 68): the first element of the borrows
list as returned by the evaluator, with no reordering. -/
def selectBorrowFirst (bs : List Borrow) : Option Borrow :=
  bs.head?

/-- Embeds `const selectedBorrow = sortBorrows(borrows)[0]` from the
`liquidate.ts` per-obligation loop: the first element of the list ordered by
`sortBorrows`. -/
def selectBorrowSorted (bs : List Borrow) : Option Borrow :=
  (sortBorrows bs).head?

/-- Result of one pass of the per-obligation loop body, up to the point where
a liquidation is attempted. -/
inductive StepResult
  | healthy
  | indeterminate
  | attempt (b : Borrow) (d : Deposit)
  deriving DecidableEq

/-- Embeds the decision structure of the per-obligation loop body in
`src/libs/processObligation.ts`: break as healthy when
`borrowedValue.isLessThanOrEqualTo(unhealthyBorrowValue)` (line 53), else
take `borrows[0]` and the maximal-market-value deposit, and break with a
warning when either is missing (lines 78-83); otherwise attempt the
liquidation with the selected pair. -/
def obligationStep (borrowedValue unhealthyBorrowValue : ℚ)
    (borrows : List Borrow) (deposits : List Deposit) : StepResult :=
  if borrowedValue ≤ unhealthyBorrowValue then .healthy
  else
    match selectBorrowFirst borrows, selectDeposit deposits with
    | some b, some d => .attempt b d
    | some _, none => .indeterminate
    | none, _ => .indeterminate

/-! ## Flash-loan liquidation composer
Embeds the effectful tail of `liquidateAndRedeem` in `src/liquidate.ts`
(route lookup, swap execution, simulation, submission, confirmation, profit
measurement).  The chain and DEX responses are an explicit environment; the
side effects performed are collected into an event list. -/

/-- Responses of the chain and the DEX aggregator consumed by one
`liquidateAndRedeem` run. -/
structure ComposeEnv where
  routesAvailable : Bool
  swapError : Option String
  simulationError : Option String
  txHash : String
  initialUiAmount : ℚ
  finalUiAmount : ℚ

/-- Observable side effects of one `liquidateAndRedeem` run. -/
inductive TxEvent
  | swapExecute
  | simulate
  | sendRaw
  | confirmTx
  deriving DecidableEq, Repr

/-- Embeds the control flow of `liquidateAndRedeem` in `src/liquidate.ts`
after instruction assembly: throw when no swap route exists; execute the
Jupiter swap and throw on its error; simulate the composed transaction and
throw on `simulation.value.err` (lines 439-442); only then call
`connection.sendRawTransaction` (line 444), confirm, and report the profit as
the difference of the repay-account balances. -/
def liquidateAndRedeemRun (env : ComposeEnv) : Except String (String × ℚ) × List TxEvent :=
  if env.routesAvailable = false then
    (.error "No swap route found", [])
  else
    match env.swapError with
    | some e => (.error e, [.swapExecute])
    | none =>
      match env.simulationError with
      | some e => (.error e, [.swapExecute, .simulate])
      | none =>
        (.ok (env.txHash, env.finalUiAmount - env.initialUiAmount),
          [.swapExecute, .simulate, .sendRaw, .confirmTx])

/-! ## Price oracle aggregator
Embeds `getTokenOracleData` from `src/libs/pyth.ts`: LRU cache with a TTL,
an independent staleness check, the pyth / switchboard / fallback resolution
chain, and the write-through on success. -/

/-- Source tag of a resolved price. -/
inductive PriceSource
  | pyth
  | switchboard
  | fallback
  deriving DecidableEq, Repr

/-- One entry of the `priceCache` LRU map. -/
structure CacheEntry where
  price : ℚ
  timestamp : Nat
  confidence : Option ℚ
  source : PriceSource
  deriving DecidableEq, Repr

/-- The price cache, keyed by the (symbol, reserve address) pair that the
source concatenates into the cache key string. -/
abbrev PriceCache := List ((String × String) × CacheEntry)

/-- Plain association lookup in the cache. -/
def cacheFind (c : PriceCache) (k : String × String) : Option CacheEntry :=
  match c.find? (fun p => p.1 = k) with
  | some p => some p.2
  | none => none

/-- Embeds `priceCache.get`: the `lru-cache` library returns an entry only
while its age does not exceed the configured TTL
(`BOT_CONFIG.PRICE_FEEDS.CACHE_TTL_MS`); older entries are treated as absent. -/
def lruGet (ttlMs : Nat) (now : Nat) (c : PriceCache) (k : String × String) : Option CacheEntry :=
  match cacheFind c k with
  | some e => if now - e.timestamp > ttlMs then none else some e
  | none => none

/-- Embeds `priceCache.set`: store the entry under the key, replacing any
previous entry. -/
def cacheSet (c : PriceCache) (k : String × String) (e : CacheEntry) : PriceCache :=
  (k, e) :: c.filter (fun p => ¬(p.1 = k))

/-- Decoded pyth price account content relevant to the acceptance check. -/
structure PythInfo where
  price : ℚ
  confidence : Option ℚ
  trading : Bool

/-- Oracle responses for one reserve: the decoded pyth account if readable,
the first accepted switchboard value across the retry attempts if any, and
the static fallback table entry for the symbol if present. -/
structure OracleEnv where
  pythInfo : Option PythInfo
  switchboardValue : Option ℚ
  fallbackPrice : Option ℚ

/-- Switchboard and fallback stages of the resolution chain: a switchboard
decode is accepted when its value is nonzero (JavaScript truthiness of
`result.lastRoundResult.result` resp. `result.toNumber()`), else the
fallback table is consulted. -/
def resolveSwitchboardFallback (env : OracleEnv) : Option (ℚ × Option ℚ × PriceSource) :=
  match env.switchboardValue with
  | some v => if v = 0 then
      (match env.fallbackPrice with
        | some p => some (p, none, .fallback)
        | none => none)
    else some (v, none, .switchboard)
  | none =>
    match env.fallbackPrice with
    | some p => some (p, none, .fallback)
    | none => none

/-- Fresh resolution chain of `getTokenOracleData` (`src/libs/pyth.ts`): accept
the pyth price when it is nonzero, its status is trading and its confidence in
basis points (`confidence / price * 10000`, with missing confidence read as 0)
is at most `REQUIRED_CONFIDENCE_BPS`; otherwise fall back to switchboard and
then to the static table. -/
def resolveFresh (requiredConfidenceBps : ℚ) (env : OracleEnv) :
    Option (ℚ × Option ℚ × PriceSource) :=
  match env.pythInfo with
  | some pi =>
    if ¬(pi.price = 0) ∧ pi.trading = true ∧
        (pi.confidence.getD 0) / pi.price * 10000 ≤ requiredConfidenceBps then
      some (pi.price, pi.confidence, .pyth)
    else resolveSwitchboardFallback env
  | none => resolveSwitchboardFallback env

/-- Configuration slice of `BOT_CONFIG.PRICE_FEEDS` used by the aggregator. -/
structure OracleConfig where
  cacheTtlMs : Nat
  staleThresholdMs : Nat
  requiredConfidenceBps : ℚ

/-- Data returned by `getTokenOracleData` for one reserve. -/
structure TokenOracle where
  symbol : String
  mintAddress : String
  decimals : ℚ
  price : ℚ
  confidence : Option ℚ
  source : PriceSource
  deriving DecidableEq, Repr

/-- Fresh-resolution tail of `getTokenOracleData`: resolve, and on success
write the price through to the cache with the current timestamp and source
tag; on failure return `none` and leave the cache unchanged. -/
def freshServe (cfg : OracleConfig) (now : Nat) (sym addr mint : String) (dec : ℚ)
    (env : OracleEnv) (cache : PriceCache) : Option TokenOracle × PriceCache :=
  match resolveFresh cfg.requiredConfidenceBps env with
  | some (p, c, src) =>
    (some ⟨sym, mint, dec, p, c, src⟩, cacheSet cache (sym, addr) ⟨p, now, c, src⟩)
  | none => (none, cache)

/-- Embeds `getTokenOracleData` from `src/libs/pyth.ts`: look the key up in the
LRU cache and serve the entry when `now - entry.timestamp` is below the
staleness threshold (lines 43-63); otherwise resolve freshly and cache the
result (lines 144-151). -/
def getTokenOracleData (cfg : OracleConfig) (now : Nat) (sym addr mint : String) (dec : ℚ)
    (env : OracleEnv) (cache : PriceCache) : Option TokenOracle × PriceCache :=
  match lruGet cfg.cacheTtlMs now cache (sym, addr) with
  | some e =>
    if now - e.timestamp < cfg.staleThresholdMs then
      (some ⟨sym, mint, dec, e.price, e.confidence, e.source⟩, cache)
    else freshServe cfg now sym addr mint dec env cache
  | none => freshServe cfg now sym addr mint dec env cache

/-! ## Collateral exchange rate
Embeds `getCollateralExchangeRate` from `src/config.ts`. -/

/-- The WAD fixed-point scale (10^18). -/
def WAD : Nat := 10 ^ 18

/-- Reserve fields consumed by `getCollateralExchangeRate`. -/
structure ReserveState where
  availableAmount : Nat
  borrowedAmountWads : Nat
  mintTotalSupply : Nat
  deriving DecidableEq, Repr

/-- Total liquidity of a reserve in WAD units: available amount scaled by WAD
plus the accrued borrowed amount (already in WAD). -/
def totalLiquidity (r : ReserveState) : ℚ :=
  (r.availableAmount : ℚ) * (WAD : ℚ) + (r.borrowedAmountWads : ℚ)

/-- Embeds `getCollateralExchangeRate` (`src/config.ts` lines 549-563): the
initial rate `1 * WAD` when the collateral mint supply or the total liquidity
is zero, otherwise `mintTotalSupply * WAD / totalLiquidity`. -/
def getCollateralExchangeRate (r : ReserveState) : ℚ :=
  if r.mintTotalSupply = 0 ∨ totalLiquidity r = 0 then (WAD : ℚ)
  else (r.mintTotalSupply : ℚ) * (WAD : ℚ) / totalLiquidity r

/-! ## Rate limiter
Embeds the `RateLimiter` class of `src/libs/jito.ts` (lines 26-138).  Time is
an explicit millisecond clock; one call to `checkRateLimit` is an iteration
of `checkRateLimitStep` in which every sleep advances the clock by the slept
delay. -/

/-- Configuration slice `BOT_CONFIG.RPC.RATE_LIMIT` consumed by the
`RateLimiter` constructor, plus the adaptive-throttling switch. -/
structure RLConfig where
  maxRequestsPerSecond : Nat
  burstRequests : Nat
  cooldownMs : Nat
  dailyLimit : Nat
  monthlyLimit : Nat
  enableAdaptiveThrottling : Bool
  deriving DecidableEq, Repr

/-- Mutable state of a `RateLimiter`: the sliding window of request
timestamps, the daily and monthly counters, and the two reset anchors.  The
class holds no error counts and no breaker flag. -/
structure RLState where
  requestQueue : List Nat
  dailyRequests : Nat
  monthlyRequests : Nat
  lastResetDaily : Nat
  lastResetMonthly : Nat
  deriving DecidableEq, Repr

/-- Embeds `resetCounters` (`src/libs/jito.ts` lines 58-72): zero the daily
counter once 24 hours (86400000 ms) have elapsed since its last reset, and the
monthly counter once 30 days (2592000000 ms) have elapsed. -/
def resetCounters (now : Nat) (s : RLState) : RLState :=
  let s1 :=
    if 86400000 ≤ now - s.lastResetDaily then
      { s with dailyRequests := 0, lastResetDaily := now }
    else s
  if 2592000000 ≤ now - s1.lastResetMonthly then
    { s1 with monthlyRequests := 0, lastResetMonthly := now }
  else s1

/-- Outcome of one pass through the body of `checkRateLimit`: either the
request is admitted (with the adaptive-throttling delay slept before
returning), or the limiter sleeps the given delay and re-checks. -/
inductive RLOutcome
  | granted (postDelayMs : Nat) (s : RLState)
  | sleepRetry (delayMs : Nat) (s : RLState)
  deriving DecidableEq, Repr

/-- Adaptive-throttling delay (`src/libs/jito.ts` lines 117-126), computed on
the already-incremented counters: twice the cooldown above 90% daily or
monthly usage, the cooldown above 75%, else no delay. -/
def adaptiveDelay (cfg : RLConfig) (daily monthly : Nat) : Nat :=
  if cfg.enableAdaptiveThrottling = true then
    if ((daily : ℚ) / (cfg.dailyLimit : ℚ)) * 100 > 90 ∨
        ((monthly : ℚ) / (cfg.monthlyLimit : ℚ)) * 100 > 90 then
      cfg.cooldownMs * 2
    else if ((daily : ℚ) / (cfg.dailyLimit : ℚ)) * 100 > 75 ∨
        ((monthly : ℚ) / (cfg.monthlyLimit : ℚ)) * 100 > 75 then
      cfg.cooldownMs
    else 0
  else 0

/-- Embeds one pass through `checkRateLimit` (`src/libs/jito.ts` lines
85-127): reset the counters, sleep and re-check on a monthly or daily cap
breach, drop window entries older than one second, sleep and re-check on a
burst cap breach, else push the current timestamp, bump both counters and
admit (after the adaptive-throttling delay). -/
def checkRateLimitStep (cfg : RLConfig) (now : Nat) (s0 : RLState) : RLOutcome :=
  let s := resetCounters now s0
  if cfg.monthlyLimit ≤ s.monthlyRequests then .sleepRetry 300000 s
  else if cfg.dailyLimit ≤ s.dailyRequests then .sleepRetry 60000 s
  else
    let q := s.requestQueue.filter (fun t => now - t < 1000)
    if cfg.burstRequests ≤ q.length then
      .sleepRetry cfg.cooldownMs { s with requestQueue := q }
    else
      .granted (adaptiveDelay cfg (s.dailyRequests + 1) (s.monthlyRequests + 1))
        { s with
          requestQueue := q ++ [now],
          dailyRequests := s.dailyRequests + 1,
          monthlyRequests := s.monthlyRequests + 1 }

/-- Full `checkRateLimit` as a clock-passing iteration of
`checkRateLimitStep`: a sleep advances the clock by the slept delay and the
check is re-run (the recursive call in the source); on admission the call
returns at the clock value reached after the adaptive-throttling delay.
`fuel` bounds the number of re-checks considered. -/
def checkRateLimit (cfg : RLConfig) : Nat → Nat → RLState → Option (Nat × RLState)
  | 0, _, _ => none
  | fuel + 1, now, s =>
    match checkRateLimitStep cfg now s with
    | .granted postDelay s1 => some (now + postDelay, s1)
    | .sleepRetry d s1 => checkRateLimit cfg fuel (now + d) s1

/-- The rate-limit configuration constructed for the Jito connection from
`BOT_CONFIG.RPC.RATE_LIMIT` (settings file with the circuit-breaker
constants): 5 requests per second, burst 8, cooldown 5000 ms, 50000 daily,
2000000 monthly, adaptive throttling enabled. -/
def jitoRateLimitConfig : RLConfig :=
  ⟨5, 8, 5000, 50000, 2000000, true⟩

/-- Circuit-breaker constants declared under `BOT_CONFIG.RPC.RATE_LIMIT`
(`ERROR_THRESHOLD`, `CIRCUIT_BREAKER_TIMEOUT_MS`).  No code of the repository
reads either constant. -/
def circuitBreakerErrorThreshold : ℚ := 1 / 10

/-- Cooldown constant `CIRCUIT_BREAKER_TIMEOUT_MS` (5 minutes), likewise
never read. -/
def circuitBreakerTimeoutMs : Nat := 300000

/-- A `RateLimiter` state after 100 relay calls were observed (all admitted,
spread over the last hours, none inside the current one-second window). -/
def stateAfter100Calls : RLState :=
  ⟨[], 100, 100, 0, 0⟩

/-! ## Bundle polling
Embeds `waitForBundle` of `JitoConnection` (`src/libs/jito.ts` lines
297-322).  Poll `i` happens `1000 * i` milliseconds after the start (the loop
sleeps one second at the end of every iteration); `statusAt i` is the bundle
status returned by `getBundleStatus` at poll `i`, with `none` for a bundle
not yet observed. -/

/-- Bundle states reported by the relay. -/
inductive BundleState
  | Invalid
  | Pending
  | Failed
  | Landed
  deriving DecidableEq, Repr

/-- Bundle status record returned by `getBundleStatus`. -/
structure BundleInfo where
  bundleId : String
  status : BundleState
  landedSlot : Option Nat
  deriving DecidableEq, Repr

/-- Outcome of `waitForBundle`: the landed status, the distinct error raised
on a `Failed` status (`Bundle execution failed`), or the distinct error
raised on deadline excess (`Bundle confirmation timeout`). -/
inductive WaitOutcome
  | landed (st : BundleInfo)
  | failedError
  | timeoutError
  deriving DecidableEq, Repr

/-- Loop body of `waitForBundle`: raise the timeout error once the elapsed
time exceeds `timeoutMs`; poll; sleep and continue when the bundle is
unobserved; raise the failure error on `Failed`; return on `Landed`; sleep
and continue otherwise.  The fuel argument exceeds the number of polls the
deadline permits, so the fuel-exhaustion branch is unreachable. -/
def waitForBundleAux (statusAt : Nat → Option BundleInfo) (timeoutMs : Nat) :
    Nat → Nat → WaitOutcome
  | _, 0 => .timeoutError
  | i, fuel + 1 =>
    if timeoutMs < 1000 * i then .timeoutError
    else
      match statusAt i with
      | none => waitForBundleAux statusAt timeoutMs (i + 1) fuel
      | some st =>
        if st.status = .Failed then .failedError
        else if st.status = .Landed then .landed st
        else waitForBundleAux statusAt timeoutMs (i + 1) fuel

/-- Embeds `waitForBundle`: run the polling loop from the start time with
enough fuel for every poll the deadline permits. -/
def waitForBundle (statusAt : Nat → Option BundleInfo) (timeoutMs : Nat) : WaitOutcome :=
  waitForBundleAux statusAt timeoutMs 0 (timeoutMs / 1000 + 2)

/-! ## Keypair normalization
Embeds `normalizeKeypair`, which exists in two variants: `src/libs/secret.ts`
(returns the last 32 bytes of a 64-byte secret) and the unnamed variant
(returns accepted inputs unchanged).  `JSON.parse` and `bs58.decode` are
external libraries; an input is represented by its parse outcome. -/

instance {ε α : Type} [DecidableEq ε] [DecidableEq α] : DecidableEq (Except ε α)
  | .ok a, .ok b =>
    if h : a = b then isTrue (h ▸ rfl) else isFalse (fun hh => h (Except.ok.inj hh))
  | .error a, .error b =>
    if h : a = b then isTrue (h ▸ rfl) else isFalse (fun hh => h (Except.error.inj hh))
  | .ok _, .error _ => isFalse (fun hh => Except.noConfusion hh)
  | .error _, .ok _ => isFalse (fun hh => Except.noConfusion hh)

/-- Parse outcome of the secret file content: a string that JSON-parses to an
array of numbers, a string that JSON-parses to something else, or a
non-JSON string together with its base58 decoding (`none` when the string is
not valid base58). -/
inductive SecretInput
  | jsonArr (a : List Int)
  | jsonOther
  | b58str (decoded : Option (List Int))

/-- Embeds `isValidByteArray`: length exactly 32 or 64 and every element a
number between 0 and 255. -/
def isValidByteArray (a : List Int) : Bool :=
  (a.length = 32 ∨ a.length = 64 : Bool) && a.all (fun b => 0 ≤ b && b ≤ 255)

/-- Embeds `isValidBase58` applied to a decoded candidate: the string decodes
and the decoding has length exactly 32 or 64. -/
def isValidBase58Decoded (d : Option (List Int)) : Bool :=
  match d with
  | some bytes => bytes.length = 32 || bytes.length = 64
  | none => false

/-- Embeds `normalizeKeypair` from `src/libs/secret.ts`: valid byte arrays of
length 64 yield their last 32 bytes (`parsed.slice(32)`), length-32 arrays
are returned unchanged; valid base58 decodings are treated the same way;
everything else raises `bad secret key size`. -/
def normalizeKeypair (input : SecretInput) : Except String (List Int) :=
  match input with
  | .jsonArr a =>
    if isValidByteArray a then
      .ok (if a.length = 64 then a.drop 32 else a)
    else .error "bad secret key size"
  | .jsonOther => .error "bad secret key size"
  | .b58str d =>
    if isValidBase58Decoded d then
      match d with
      | some bytes => .ok (if bytes.length = 64 then bytes.drop 32 else bytes)
      | none => .error "bad secret key size"
    else .error "bad secret key size"

/-- Embeds `normalizeKeypair` from the unnamed secret-loader variant
(`src/unnamed/part_000`): accepted inputs are returned unchanged, including
the full 64 bytes of a 64-byte representation. -/
def normalizeKeypairFull (input : SecretInput) : Except String (List Int) :=
  match input with
  | .jsonArr a =>
    if isValidByteArray a then .ok a else .error "bad secret key size"
  | .jsonOther => .error "bad secret key size"
  | .b58str d =>
    if isValidBase58Decoded d then
      match d with
      | some bytes => .ok bytes
      | none => .error "bad secret key size"
    else .error "bad secret key size"

/-! ## Concrete sample data
Fixture values used by the closed instance theorems below. -/

/-- The all-zero 32-byte address. -/
def pkZero : Pubkey := ⟨List.replicate 32 0, by simp⟩

/-- A 32-byte address whose last byte is 1 and all others 0. -/
def pkLastOne : Pubkey := ⟨List.replicate 31 0 ++ [1], by simp⟩

/-- A 32-byte address whose last byte is 2 and all others 0. -/
def pkLastTwo : Pubkey := ⟨List.replicate 31 0 ++ [2], by simp⟩

/-- A borrow with weight 0, listed first in the fixtures. -/
def borrowLow : Borrow := ⟨pkZero, 0, 500, 10, "USDC"⟩

/-- A borrow with weight 100. -/
def borrowHigh : Borrow := ⟨pkLastOne, 100, 700, 20, "SOL"⟩

/-- A borrow tied in weight with `borrowTieBig`, smaller last address byte. -/
def borrowTieSmall : Borrow := ⟨pkLastOne, 100, 300, 5, "ETH"⟩

/-- A borrow tied in weight with `borrowTieSmall`, larger last address byte. -/
def borrowTieBig : Borrow := ⟨pkLastTwo, 100, 400, 6, "BTC"⟩

/-- Two deposits with exactly equal market value, and one larger deposit. -/
def depositA : Deposit := ⟨5, "A"⟩

/-- Second deposit with the same market value as `depositA`. -/
def depositB : Deposit := ⟨5, "B"⟩

/-- A deposit with a strictly larger market value. -/
def depositBig : Deposit := ⟨100, "SOL"⟩

/-- A composer environment whose simulation reports an error. -/
def composeEnvSimFail : ComposeEnv := ⟨true, none, some "InstructionError", "tx1", 0, 0⟩

/-- Price-feed configuration with the settings-file constants: cache TTL
10000 ms, staleness threshold 60000 ms, required confidence 100 bps. -/
def oracleConfigSample : OracleConfig := ⟨10000, 60000, 100⟩

/-- Oracle responses where the pyth account trades at price 2 with no
confidence field. -/
def oracleEnvPyth2 : OracleEnv := ⟨some ⟨2, none, true⟩, none, none⟩

/-- A cache holding a price of 1 written at time 0 for (USDC, R1). -/
def cacheWithUSDC : PriceCache := [(("USDC", "R1"), ⟨1, 0, none, .fallback⟩)]

/-- Reserve with minted collateral but zero total liquidity. -/
def reserveMintedNoLiquidity : ReserveState := ⟨0, 0, 5⟩

/-- Reserve with minted collateral and nonzero liquidity. -/
def reserveNormal : ReserveState := ⟨100, 0, 50⟩

/-- Limiter state whose one-second window already holds 8 timestamps. -/
def rlStateBurstFull : RLState := ⟨List.replicate 8 999, 10, 10, 0, 0⟩

/-- Limiter state whose last daily reset lies more than 24 hours back. -/
def rlStateDayOld : RLState := ⟨[], 42, 42, 0, 0⟩

/-- Fresh limiter state. -/
def rlStateFresh : RLState := ⟨[], 0, 0, 0, 0⟩

/-- Bundle status fixtures. -/
def bundlePending : BundleInfo := ⟨"b1", .Pending, none⟩

/-- Landed status fixture. -/
def bundleLanded : BundleInfo := ⟨"b1", .Landed, some 5⟩

/-- Failed status fixture. -/
def bundleFailed : BundleInfo := ⟨"b1", .Failed, none⟩

/-- Status stream that is pending for three polls and then lands. -/
def statusLandsAfter3 (i : Nat) : Option BundleInfo :=
  if i < 3 then some bundlePending else some bundleLanded

/-- Status stream that never leaves pending. -/
def statusAlwaysPending (_ : Nat) : Option BundleInfo := some bundlePending

/-- Status stream that reports failure from the first poll. -/
def statusImmediateFail (_ : Nat) : Option BundleInfo := some bundleFailed

/-- A 64-byte secret whose two halves differ. -/
def bytes64 : List Int := (List.range 64).map Int.ofNat

/-- A 32-byte secret. -/
def bytes32 : List Int := (List.range 32).map Int.ofNat

/-! ## Theorems -/

/-- Claim C1: the per-obligation loop treats an obligation as liquidatable
iff `borrowedValue > unhealthyBorrowValue`; whenever
`borrowedValue ≤ unhealthyBorrowValue` (equality included) it classifies the
obligation as healthy and stops without attempting liquidation, and a
liquidation is attempted only when `borrowedValue > unhealthyBorrowValue`. -/
theorem obligationStep_healthy_iff (bv uv : ℚ) (bs : List Borrow) (ds : List Deposit) :
    (obligationStep bv uv bs ds = .healthy ↔ bv ≤ uv) ∧
    (∀ b d, obligationStep bv uv bs ds = .attempt b d → uv < bv) := by
  unfold obligationStep
  by_cases h : bv ≤ uv
  · simp [h]
  · simp only [if_neg h]
    refine ⟨⟨fun hm => ?_, fun hle => absurd hle h⟩, fun b d _ => lt_of_not_le h⟩
    cases hb : selectBorrowFirst bs <;> cases hd : selectDeposit ds <;>
      simp [hb, hd] at hm

/-- Witness for C1 at the specification's end-to-end numbers: deposit value
100 with threshold 80% gives unhealthy borrow value 80, borrowed value 85 is
classified liquidatable, and the theorem yields 80 < 85. -/
theorem obligationStep_healthy_iff_witness :
    ((80 : ℚ) < 85) ∧
    (obligationStep 40 80 [borrowHigh] [depositBig] = .healthy) :=
  ⟨(obligationStep_healthy_iff 85 80 [borrowHigh] [depositBig]).2 borrowHigh depositBig
      (by decide),
    (obligationStep_healthy_iff 40 80 [borrowHigh] [depositBig]).1.mpr (by norm_num)⟩

/-- Claim C2: when the pre-submission simulation reports an error,
`liquidateAndRedeem` raises an error and `sendRawTransaction` is never
called for that transaction. -/
theorem simulationFailure_blocks_submission (env : ComposeEnv) (e : String)
    (h : env.simulationError = some e) :
    (∃ msg, (liquidateAndRedeemRun env).1 = .error msg) ∧
    TxEvent.sendRaw ∉ (liquidateAndRedeemRun env).2 := by
  unfold liquidateAndRedeemRun
  by_cases hr : env.routesAvailable = false
  · simp [hr]
  · cases hs : env.swapError <;> simp [hr, hs, h]

/-- Witness for C2: a concrete environment whose simulation fails. -/
theorem simulationFailure_blocks_submission_witness :
    (∃ msg, (liquidateAndRedeemRun composeEnvSimFail).1 = .error msg) ∧
    TxEvent.sendRaw ∉ (liquidateAndRedeemRun composeEnvSimFail).2 :=
  simulationFailure_blocks_submission composeEnvSimFail "InstructionError" rfl

/-- Claim C6 counterexample: a reserve with minted collateral
(`mintTotalSupply = 5`) but zero total liquidity gets the initial WAD rate,
not `mintTotalSupply * WAD / totalLiquidity` (no rate satisfies
`rate * totalLiquidity = mintTotalSupply * WAD` there). -/
theorem collateralRate_zeroLiquidity_cex :
    reserveMintedNoLiquidity.mintTotalSupply ≠ 0 ∧
    getCollateralExchangeRate reserveMintedNoLiquidity = (WAD : ℚ) ∧
    getCollateralExchangeRate reserveMintedNoLiquidity *
        totalLiquidity reserveMintedNoLiquidity ≠
      (reserveMintedNoLiquidity.mintTotalSupply : ℚ) * (WAD : ℚ) := by
  refine ⟨by decide, ?_, ?_⟩
  · simp [getCollateralExchangeRate, totalLiquidity, reserveMintedNoLiquidity]
  · simp [getCollateralExchangeRate, totalLiquidity, reserveMintedNoLiquidity, WAD]

/-- Claim C6 (amended): the collateral exchange rate is the initial rate
`1 * WAD` while no collateral has been minted or the total liquidity is
zero; once collateral has been minted and the total liquidity is nonzero it
equals `mintTotalSupply * WAD / totalLiquidity`. -/
theorem getCollateralExchangeRate_spec (r : ReserveState) :
    (r.mintTotalSupply = 0 ∨ totalLiquidity r = 0 →
      getCollateralExchangeRate r = (WAD : ℚ)) ∧
    (r.mintTotalSupply ≠ 0 → totalLiquidity r ≠ 0 →
      getCollateralExchangeRate r =
        (r.mintTotalSupply : ℚ) * (WAD : ℚ) / totalLiquidity r) := by
  constructor
  · intro h
    simp [getCollateralExchangeRate, h]
  · intro h1 h2
    have : ¬(r.mintTotalSupply = 0 ∨ totalLiquidity r = 0) := by
      rintro (h | h) <;> [exact h1 h; exact h2 h]
    simp [getCollateralExchangeRate, this]

/-- Witness for C6 at a reserve with supply 50 and available amount 100. -/
theorem getCollateralExchangeRate_spec_witness :
    getCollateralExchangeRate reserveNormal =
      (reserveNormal.mintTotalSupply : ℚ) * (WAD : ℚ) / totalLiquidity reserveNormal :=
  (getCollateralExchangeRate_spec reserveNormal).2 (by decide)
    (by simp [totalLiquidity, reserveNormal, WAD])

/-- Claim C10 counterexample: the unnamed secret-loader variant returns a
64-byte input unchanged, not its last 32 bytes. -/
theorem normalizeKeypairFull_cex :
    normalizeKeypairFull (.jsonArr bytes64) = .ok bytes64 ∧
    normalizeKeypairFull (.jsonArr bytes64) ≠ .ok (bytes64.drop 32) := by
  constructor
  · decide
  · decide

/-- Claim C10 (amended): `src/libs/secret.ts` returns a valid 32-byte input
unchanged and exactly the last 32 bytes of a valid 64-byte input, while the
`part_000` variant returns every accepted input unchanged (the full 64
bytes included); both raise `bad secret key size` on invalid byte arrays,
and both treat a base58 decoding of length 64 the same way as a 64-byte
array. -/
theorem normalizeKeypair_variants_spec (a : List Int) :
    (isValidByteArray a = true → a.length = 32 →
      normalizeKeypair (.jsonArr a) = .ok a ∧
      normalizeKeypairFull (.jsonArr a) = .ok a) ∧
    (isValidByteArray a = true → a.length = 64 →
      normalizeKeypair (.jsonArr a) = .ok (a.drop 32) ∧
      normalizeKeypairFull (.jsonArr a) = .ok a) ∧
    (isValidByteArray a = false →
      normalizeKeypair (.jsonArr a) = .error "bad secret key size" ∧
      normalizeKeypairFull (.jsonArr a) = .error "bad secret key size") ∧
    (a.length = 64 →
      normalizeKeypair (.b58str (some a)) = .ok (a.drop 32) ∧
      normalizeKeypairFull (.b58str (some a)) = .ok a) := by
  refine ⟨fun hv h32 => ?_, fun hv h64 => ?_, fun hv => ?_, fun h64 => ?_⟩
  · have : ¬ a.length = 64 := by omega
    simp [normalizeKeypair, normalizeKeypairFull, hv, this]
  · simp [normalizeKeypair, normalizeKeypairFull, hv, h64]
  · simp [normalizeKeypair, normalizeKeypairFull, hv]
  · simp [normalizeKeypair, normalizeKeypairFull, isValidBase58Decoded, h64]

/-- Witness for C10 at the concrete 64- and 32-byte fixtures. -/
theorem normalizeKeypair_variants_spec_witness :
    (normalizeKeypair (.jsonArr bytes64) = .ok (bytes64.drop 32) ∧
      normalizeKeypairFull (.jsonArr bytes64) = .ok bytes64) ∧
    (normalizeKeypair (.jsonArr bytes32) = .ok bytes32 ∧
      normalizeKeypairFull (.jsonArr bytes32) = .ok bytes32) :=
  ⟨(normalizeKeypair_variants_spec bytes64).2.1 (by decide) (by decide),
    (normalizeKeypair_variants_spec bytes32).1 (by decide) (by decide)⟩

/-- Helper: once the accumulator is non-empty, the fold of
`selectDepositStep` follows `selectDepositGo`. -/
theorem selectDeposit_foldl_go (l : List Deposit) : ∀ s : Deposit,
    List.foldl selectDepositStep (some s) l = some (selectDepositGo s l) := by
  induction l with
  | nil => intro s; rfl
  | cons d t ih =>
    intro s
    by_cases h : s.marketValue < d.marketValue
    · simp only [List.foldl_cons, selectDepositStep, if_pos h, selectDepositGo]
      exact ih d
    · simp only [List.foldl_cons, selectDepositStep, if_neg h, selectDepositGo]
      exact ih s

/-- Helper: `selectDepositGo s l` dominates `s` and every element of `l`, and
is either `s` itself or an element of `l` strictly dominating `s` and every
element before it. -/
theorem selectDepositGo_spec (l : List Deposit) : ∀ s : Deposit,
    s.marketValue ≤ (selectDepositGo s l).marketValue ∧
    (∀ x ∈ l, x.marketValue ≤ (selectDepositGo s l).marketValue) ∧
    (selectDepositGo s l = s ∨
      ∃ l1 l2, l = l1 ++ selectDepositGo s l :: l2 ∧
        s.marketValue < (selectDepositGo s l).marketValue ∧
        ∀ x ∈ l1, x.marketValue < (selectDepositGo s l).marketValue) := by
  induction l with
  | nil => exact fun s => ⟨le_refl _, by simp, Or.inl rfl⟩
  | cons d t ih =>
    intro s
    by_cases h : s.marketValue < d.marketValue
    · have hgo : selectDepositGo s (d :: t) = selectDepositGo d t := by
        show (if s.marketValue < d.marketValue then selectDepositGo d t
          else selectDepositGo s t) = selectDepositGo d t
        rw [if_pos h]
      obtain ⟨h1, h2, h3⟩ := ih d
      rw [hgo]
      generalize hr : selectDepositGo d t = r at h1 h2 h3 ⊢
      refine ⟨le_of_lt (lt_of_lt_of_le h h1), ?_, ?_⟩
      · intro x hx
        rcases List.mem_cons.mp hx with rfl | hx
        · exact h1
        · exact h2 x hx
      · rcases h3 with heq | ⟨l1, l2, hsplit, hlt, hall⟩
        · right
          refine ⟨[], t, by simp [heq], ?_, by simp⟩
          rw [heq]; exact h
        · right
          refine ⟨d :: l1, l2, by simp [hsplit], lt_trans h hlt, ?_⟩
          intro x hx
          rcases List.mem_cons.mp hx with rfl | hx
          · exact hlt
          · exact hall x hx
    · have hgo : selectDepositGo s (d :: t) = selectDepositGo s t := by
        show (if s.marketValue < d.marketValue then selectDepositGo d t
          else selectDepositGo s t) = selectDepositGo s t
        rw [if_neg h]
      obtain ⟨h1, h2, h3⟩ := ih s
      rw [hgo]
      generalize hr : selectDepositGo s t = r at h1 h2 h3 ⊢
      have hds : d.marketValue ≤ s.marketValue := le_of_not_lt h
      refine ⟨h1, ?_, ?_⟩
      · intro x hx
        rcases List.mem_cons.mp hx with rfl | hx
        · exact le_trans hds h1
        · exact h2 x hx
      · rcases h3 with heq | ⟨l1, l2, hsplit, hlt, hall⟩
        · exact Or.inl heq
        · right
          refine ⟨d :: l1, l2, by simp [hsplit], hlt, ?_⟩
          intro x hx
          rcases List.mem_cons.mp hx with rfl | hx
          · exact lt_of_le_of_lt hds hlt
          · exact hall x hx

/-- Claim C4: for a non-empty deposits list the selected withdraw-collateral
candidate is a deposit of maximal market value, and on exact ties the
first-encountered deposit wins: the selected deposit splits the list so that
everything before it has strictly smaller market value and nothing anywhere
has a larger one. -/
theorem selectDeposit_first_max (ds : List Deposit) (hne : ds ≠ []) :
    ∃ l1 d l2, ds = l1 ++ d :: l2 ∧ selectDeposit ds = some d ∧
      (∀ x ∈ ds, x.marketValue ≤ d.marketValue) ∧
      (∀ x ∈ l1, x.marketValue < d.marketValue) := by
  cases ds with
  | nil => exact absurd rfl hne
  | cons d0 t =>
    have hfold : selectDeposit (d0 :: t) = some (selectDepositGo d0 t) := by
      have hstep : selectDeposit (d0 :: t) = List.foldl selectDepositStep (some d0) t := rfl
      rw [hstep, selectDeposit_foldl_go t d0]
    obtain ⟨h1, h2, h3⟩ := selectDepositGo_spec t d0
    generalize hr : selectDepositGo d0 t = r at h1 h2 h3 hfold
    rcases h3 with heq | ⟨l1, l2, hsplit, hlt, hall⟩
    · refine ⟨[], d0, t, by simp, by rw [hfold, heq], ?_, by simp⟩
      intro x hx
      rcases List.mem_cons.mp hx with rfl | hx
      · exact le_refl _
      · rw [← heq]; exact h2 x hx
    · refine ⟨d0 :: l1, r, l2, by simp [hsplit], hfold, ?_, ?_⟩
      · intro x hx
        rcases List.mem_cons.mp hx with rfl | hx
        · exact le_of_lt hlt
        · exact h2 x hx
      · intro x hx
        rcases List.mem_cons.mp hx with rfl | hx
        · exact hlt
        · exact hall x hx

/-- Witness for C4 at two deposits of identical market value: the theorem
applies, and the selection resolves to the first-encountered deposit. -/
theorem selectDeposit_first_max_witness :
    (∃ l1 d l2, ([depositA, depositB] : List Deposit) = l1 ++ d :: l2 ∧
      selectDeposit [depositA, depositB] = some d ∧
      (∀ x ∈ ([depositA, depositB] : List Deposit), x.marketValue ≤ d.marketValue) ∧
      (∀ x ∈ l1, x.marketValue < d.marketValue)) ∧
    selectDeposit [depositA, depositB] = some depositA :=
  ⟨selectDeposit_first_max [depositA, depositB] (by decide), by decide⟩

/-- Helper: comparing a byte list with itself yields 0. -/
theorem cmpBytes_refl (l : List Nat) : cmpBytes l l = 0 := by
  induction l with
  | nil => rfl
  | cons a xs ih => simp [cmpBytes, ih]

/-- Helper: swapping the arguments of `cmpBytes` negates the result. -/
theorem cmpBytes_antisymm (l1 : List Nat) : ∀ l2 : List Nat,
    cmpBytes l2 l1 = -cmpBytes l1 l2 := by
  induction l1 with
  | nil => intro l2; cases l2 <;> rfl
  | cons a xs ih =>
    intro l2
    cases l2 with
    | nil => rfl
    | cons b ys =>
      rcases Nat.lt_trichotomy a b with hab | hab | hab
      · have hba : ¬ b < a := Nat.lt_asymm hab
        simp [cmpBytes, hab, hba]
      · subst hab
        simp [cmpBytes, lt_irrefl, ih ys]
      · have hba : ¬ a < b := Nat.lt_asymm hab
        simp [cmpBytes, hab, hba]

/-- Helper: `cmpBytes … ≤ 0` is transitive on byte lists of equal length. -/
theorem cmpBytes_trans (l1 : List Nat) : ∀ l2 l3 : List Nat,
    l1.length = l2.length → l2.length = l3.length →
    cmpBytes l1 l2 ≤ 0 → cmpBytes l2 l3 ≤ 0 → cmpBytes l1 l3 ≤ 0 := by
  induction l1 with
  | nil =>
    intro l2 l3 h12 h23 ha hb
    cases l2 with
    | nil =>
      cases l3 with
      | nil => exact ha
      | cons c zs => exact absurd h23 (by simp)
    | cons b ys => exact absurd h12 (by simp)
  | cons a xs ih =>
    intro l2 l3 h12 h23 ha hb
    cases l2 with
    | nil => exact absurd h12 (by simp)
    | cons b ys =>
      cases l3 with
      | nil => exact absurd h23 (by simp)
      | cons c zs =>
        have hxy : xs.length = ys.length := by simpa using h12
        have hyz : ys.length = zs.length := by simpa using h23
        rcases Nat.lt_trichotomy a b with hab | hab | hab
        · rcases Nat.lt_trichotomy b c with hbc | hbc | hbc
          · have hac : a < c := lt_trans hab hbc
            have : cmpBytes (a :: xs) (c :: zs) = -1 := by simp [cmpBytes, hac]
            rw [this]; norm_num
          · subst hbc
            have : cmpBytes (a :: xs) (b :: zs) = -1 := by simp [cmpBytes, hab]
            rw [this]; norm_num
          · exfalso
            have : cmpBytes (b :: ys) (c :: zs) = 1 := by
              simp [cmpBytes, hbc, Nat.lt_asymm hbc]
            rw [this] at hb; exact absurd hb (by norm_num)
        · subst hab
          rcases Nat.lt_trichotomy a c with hac | hac | hac
          · have : cmpBytes (a :: xs) (c :: zs) = -1 := by simp [cmpBytes, hac]
            rw [this]; norm_num
          · subst hac
            have ha' : cmpBytes xs ys ≤ 0 := by
              simpa [cmpBytes, lt_irrefl] using ha
            have hb' : cmpBytes ys zs ≤ 0 := by
              simpa [cmpBytes, lt_irrefl] using hb
            simpa [cmpBytes, lt_irrefl] using ih ys zs hxy hyz ha' hb'
          · exfalso
            have : cmpBytes (a :: ys) (c :: zs) = 1 := by
              simp [cmpBytes, hac, Nat.lt_asymm hac]
            rw [this] at hb; exact absurd hb (by norm_num)
        · exfalso
          have : cmpBytes (a :: xs) (b :: ys) = 1 := by
            simp [cmpBytes, hab, Nat.lt_asymm hab]
          rw [this] at ha; exact absurd ha (by norm_num)

/-- Helper: `cmpBorrow a b ≤ 0` means `a` has the strictly larger weight, or
the weights tie and `a`'s reserve address is byte-wise at least `b`'s. -/
theorem cmpBorrow_le_iff (a b : Borrow) :
    cmpBorrow a b ≤ 0 ↔
      (b.addedBorrowWeightBPS < a.addedBorrowWeightBPS ∨
        (a.addedBorrowWeightBPS = b.addedBorrowWeightBPS ∧
          cmpBytes b.borrowReserve.bytes a.borrowReserve.bytes ≤ 0)) := by
  unfold cmpBorrow comparePubkeys
  by_cases hw : a.addedBorrowWeightBPS = b.addedBorrowWeightBPS
  · rw [if_pos hw]
    constructor
    · exact fun h => Or.inr ⟨hw, h⟩
    · rintro (h | ⟨_, h⟩)
      · omega
      · exact h
  · rw [if_neg hw]
    by_cases hlt : a.addedBorrowWeightBPS < b.addedBorrowWeightBPS
    · rw [if_pos hlt]
      constructor
      · intro h; norm_num at h
      · rintro (h | ⟨h, _⟩) <;> omega
    · rw [if_neg hlt]
      constructor
      · intro _; left; omega
      · intro _; norm_num

/-- Helper: `borrowBefore` is reflexive. -/
theorem borrowBefore_refl (a : Borrow) : borrowBefore a a := by
  unfold borrowBefore cmpBorrow comparePubkeys
  rw [if_pos rfl, cmpBytes_refl]

/-- Helper: `borrowBefore` is total. -/
theorem borrowBefore_total (a b : Borrow) (h : ¬ borrowBefore a b) : borrowBefore b a := by
  unfold borrowBefore at *
  rw [cmpBorrow_le_iff] at *
  rcases Nat.lt_trichotomy a.addedBorrowWeightBPS b.addedBorrowWeightBPS with hw | hw | hw
  · exact Or.inl hw
  · right
    refine ⟨hw.symm, ?_⟩
    by_contra hc
    apply h
    right
    refine ⟨hw, ?_⟩
    rw [cmpBytes_antisymm]
    omega
  · exfalso; exact h (Or.inl hw)

/-- Helper: `borrowBefore` is transitive (reserve addresses are 32 bytes). -/
theorem borrowBefore_trans (a b c : Borrow) (hab : borrowBefore a b)
    (hbc : borrowBefore b c) : borrowBefore a c := by
  unfold borrowBefore at *
  rw [cmpBorrow_le_iff] at *
  rcases hab with h1 | ⟨h1, h1c⟩ <;> rcases hbc with h2 | ⟨h2, h2c⟩
  · exact Or.inl (lt_trans h2 h1)
  · exact Or.inl (h2 ▸ h1)
  · exact Or.inl (h1 ▸ h2)
  · right
    refine ⟨h1.trans h2, ?_⟩
    exact cmpBytes_trans c.borrowReserve.bytes b.borrowReserve.bytes a.borrowReserve.bytes
      (by rw [c.borrowReserve.len32, b.borrowReserve.len32])
      (by rw [b.borrowReserve.len32, a.borrowReserve.len32]) h2c h1c

/-- Helper: membership in an ordered insertion. -/
theorem mem_orderedInsertBorrow (a x : Borrow) (l : List Borrow) :
    x ∈ orderedInsertBorrow a l ↔ x = a ∨ x ∈ l := by
  induction l with
  | nil => simp [orderedInsertBorrow]
  | cons b t ih =>
    show x ∈ (if cmpBorrow a b ≤ 0 then a :: b :: t else b :: orderedInsertBorrow a t) ↔ _
    by_cases h : cmpBorrow a b ≤ 0
    · rw [if_pos h]; simp
    · rw [if_neg h]
      simp only [List.mem_cons, ih]
      tauto

/-- Helper: ordered insertion preserves pairwise ordering. -/
theorem pairwise_orderedInsertBorrow (a : Borrow) (l : List Borrow)
    (hl : l.Pairwise borrowBefore) :
    (orderedInsertBorrow a l).Pairwise borrowBefore := by
  induction l with
  | nil => simp [orderedInsertBorrow]
  | cons b t ih =>
    rcases List.pairwise_cons.mp hl with ⟨hb, ht⟩
    show ((if cmpBorrow a b ≤ 0 then a :: b :: t
      else b :: orderedInsertBorrow a t)).Pairwise borrowBefore
    by_cases h : cmpBorrow a b ≤ 0
    · rw [if_pos h]
      refine List.pairwise_cons.mpr ⟨?_, hl⟩
      intro x hx
      rcases List.mem_cons.mp hx with rfl | hx
      · exact h
      · exact borrowBefore_trans a b x h (hb x hx)
    · rw [if_neg h]
      refine List.pairwise_cons.mpr ⟨?_, ih ht⟩
      intro x hx
      rcases (mem_orderedInsertBorrow a x t).mp hx with rfl | hx
      · exact borrowBefore_total x b h
      · exact hb x hx

/-- Helper: `sortBorrows` is pairwise ordered by `borrowBefore`. -/
theorem sortBorrows_pairwise (l : List Borrow) : (sortBorrows l).Pairwise borrowBefore := by
  induction l with
  | nil => simp [sortBorrows]
  | cons b t ih =>
    show (orderedInsertBorrow b (sortBorrows t)).Pairwise borrowBefore
    exact pairwise_orderedInsertBorrow b (sortBorrows t) ih

/-- Helper: `sortBorrows` preserves membership. -/
theorem mem_sortBorrows (x : Borrow) (l : List Borrow) : x ∈ sortBorrows l ↔ x ∈ l := by
  induction l with
  | nil => simp [sortBorrows]
  | cons b t ih =>
    show x ∈ orderedInsertBorrow b (sortBorrows t) ↔ _
    rw [mem_orderedInsertBorrow, ih]
    simp

/-- Claim C3 counterexample: the per-obligation loop in
`processObligation.ts` selects `borrows[0]` without sorting: with a weight-0
borrow listed before a weight-100 borrow it selects the weight-0 borrow,
which does not have the highest borrow weight and differs from the first
element of the `sortBorrows` order. -/
theorem selectBorrowFirst_cex :
    selectBorrowFirst [borrowLow, borrowHigh] = some borrowLow ∧
    borrowHigh ∈ [borrowLow, borrowHigh] ∧
    borrowLow.addedBorrowWeightBPS < borrowHigh.addedBorrowWeightBPS ∧
    selectBorrowFirst [borrowLow, borrowHigh] ≠ selectBorrowSorted [borrowLow, borrowHigh] := by
  refine ⟨rfl, by simp, by decide, by decide⟩

/-- Claim C3 (amended): in `processObligation.ts` the repay-token candidate
is simply the first element of the evaluator's borrows list (`borrows[0]`,
no reordering); the `sortBorrows` policy governs the `liquidate.ts` variant,
whose candidate `sortBorrows(borrows)[0]` is a member of the list and has
the highest borrow weight, with weight ties broken towards the byte-wise
larger 32-byte reserve address. -/
theorem selectBorrow_spec (bs : List Borrow) (hne : bs ≠ []) :
    selectBorrowFirst bs = bs.head? ∧
    ∃ m, selectBorrowSorted bs = some m ∧ m ∈ bs ∧
      ∀ x ∈ bs, x.addedBorrowWeightBPS < m.addedBorrowWeightBPS ∨
        (m.addedBorrowWeightBPS = x.addedBorrowWeightBPS ∧
          cmpBytes x.borrowReserve.bytes m.borrowReserve.bytes ≤ 0) := by
  refine ⟨rfl, ?_⟩
  cases hs : sortBorrows bs with
  | nil =>
    exfalso
    cases bs with
    | nil => exact hne rfl
    | cons b t =>
      have hmem : b ∈ sortBorrows (b :: t) :=
        (mem_sortBorrows b (b :: t)).mpr (List.mem_cons_self b t)
      rw [hs] at hmem
      exact absurd hmem (List.not_mem_nil b)
  | cons m t =>
    refine ⟨m, ?_, ?_, ?_⟩
    · show (sortBorrows bs).head? = some m
      rw [hs]; rfl
    · have hmem : m ∈ sortBorrows bs := by
        rw [hs]; exact List.mem_cons_self m t
      exact (mem_sortBorrows m bs).mp hmem
    · intro x hx
      have hx2 : x ∈ m :: t := by
        rw [← hs]; exact (mem_sortBorrows x bs).mpr hx
      have hbb : borrowBefore m x := by
        rcases List.mem_cons.mp hx2 with rfl | hx2
        · exact borrowBefore_refl x
        · have hpw := sortBorrows_pairwise bs
          rw [hs] at hpw
          exact (List.pairwise_cons.mp hpw).1 x hx2
      exact (cmpBorrow_le_iff m x).mp hbb

/-- Witness for C3 (amended) at the fixtures, including the specified tie
case where equal-weight borrows differ only in the last address byte and the
byte-wise larger address is chosen. -/
theorem selectBorrow_spec_witness :
    (∃ m, selectBorrowSorted [borrowTieSmall, borrowTieBig] = some m ∧
      m ∈ [borrowTieSmall, borrowTieBig] ∧
      ∀ x ∈ ([borrowTieSmall, borrowTieBig] : List Borrow),
        x.addedBorrowWeightBPS < m.addedBorrowWeightBPS ∨
        (m.addedBorrowWeightBPS = x.addedBorrowWeightBPS ∧
          cmpBytes x.borrowReserve.bytes m.borrowReserve.bytes ≤ 0)) ∧
    selectBorrowSorted [borrowTieSmall, borrowTieBig] = some borrowTieBig :=
  ⟨(selectBorrow_spec [borrowTieSmall, borrowTieBig] (by decide)).2, by decide⟩

/-- Helper: the fresh resolution of the fixture environment accepts the pyth
price 2 (nonzero, trading, confidence 0 bps within the 100 bps bound). -/
theorem resolveFresh_pyth2 :
    resolveFresh oracleConfigSample.requiredConfidenceBps oracleEnvPyth2 =
      some (2, none, PriceSource.pyth) := by
  unfold resolveFresh
  simp only [oracleEnvPyth2]
  split_ifs with h
  · rfl
  · exact absurd ⟨by norm_num, by trivial, by norm_num [oracleConfigSample]⟩ h

/-- Claim C5 counterexample: with the configured cache TTL of 10000 ms and
staleness threshold of 60000 ms, a price of 1 written at time 0 is not
served back by a lookup at time 30000 although 30000 is below the staleness
threshold: the LRU TTL has already expired the entry and the freshly
resolved pyth price of 2 is served instead. -/
theorem priceCache_ttl_cex :
    ((30000 : Nat) - 0 < oracleConfigSample.staleThresholdMs) ∧
    cacheFind cacheWithUSDC ("USDC", "R1") = some ⟨1, 0, none, .fallback⟩ ∧
    (getTokenOracleData oracleConfigSample 30000 "USDC" "R1" "M1" 1000000
        oracleEnvPyth2 cacheWithUSDC).1 =
      some ⟨"USDC", "M1", 1000000, 2, none, .pyth⟩ ∧
    (getTokenOracleData oracleConfigSample 30000 "USDC" "R1" "M1" 1000000
        oracleEnvPyth2 cacheWithUSDC).1 ≠
      some ⟨"USDC", "M1", 1000000, 1, none, .fallback⟩ := by
  have hl : lruGet oracleConfigSample.cacheTtlMs 30000 cacheWithUSDC ("USDC", "R1") = none := rfl
  have hmain : getTokenOracleData oracleConfigSample 30000 "USDC" "R1" "M1" 1000000
      oracleEnvPyth2 cacheWithUSDC =
      freshServe oracleConfigSample 30000 "USDC" "R1" "M1" 1000000 oracleEnvPyth2 cacheWithUSDC := by
    unfold getTokenOracleData
    rw [hl]
  have hfs : freshServe oracleConfigSample 30000 "USDC" "R1" "M1" 1000000
      oracleEnvPyth2 cacheWithUSDC =
      (some ⟨"USDC", "M1", 1000000, 2, none, .pyth⟩,
        cacheSet cacheWithUSDC ("USDC", "R1") ⟨2, 30000, none, .pyth⟩) := by
    unfold freshServe
    rw [resolveFresh_pyth2]
  refine ⟨by decide, rfl, ?_, ?_⟩
  · rw [hmain, hfs]
  · rw [hmain, hfs]
    simp

/-- Claim C5 (amended): a cache entry is served back unchanged (with the
cache untouched) when its age is within both the LRU TTL and the staleness
threshold; an entry whose age has reached the staleness threshold is never
served, the call behaving exactly like the fresh-resolution path; and every
successful fresh resolution writes the price through to the cache under the
current timestamp and source tag. -/
theorem getTokenOracleData_cache_spec (cfg : OracleConfig) (now : Nat)
    (sym addr mint : String) (dec : ℚ) (env : OracleEnv) (cache : PriceCache) :
    (∀ e, cacheFind cache (sym, addr) = some e →
      now - e.timestamp ≤ cfg.cacheTtlMs → now - e.timestamp < cfg.staleThresholdMs →
      getTokenOracleData cfg now sym addr mint dec env cache =
        (some ⟨sym, mint, dec, e.price, e.confidence, e.source⟩, cache)) ∧
    (∀ e, cacheFind cache (sym, addr) = some e →
      cfg.staleThresholdMs ≤ now - e.timestamp →
      getTokenOracleData cfg now sym addr mint dec env cache =
        freshServe cfg now sym addr mint dec env cache) ∧
    (∀ p c src, resolveFresh cfg.requiredConfidenceBps env = some (p, c, src) →
      cacheFind (freshServe cfg now sym addr mint dec env cache).2 (sym, addr) =
        some ⟨p, now, c, src⟩) := by
  refine ⟨?_, ?_, ?_⟩
  · intro e he h1 h2
    have hl : lruGet cfg.cacheTtlMs now cache (sym, addr) = some e := by
      unfold lruGet
      rw [he]
      exact if_neg (by omega)
    unfold getTokenOracleData
    rw [hl]
    simp only [if_pos h2]
  · intro e he h1
    by_cases ht : cfg.cacheTtlMs < now - e.timestamp
    · have hl : lruGet cfg.cacheTtlMs now cache (sym, addr) = none := by
        unfold lruGet
        rw [he]
        exact if_pos ht
      unfold getTokenOracleData
      rw [hl]
    · have hl : lruGet cfg.cacheTtlMs now cache (sym, addr) = some e := by
        unfold lruGet
        rw [he]
        exact if_neg ht
      unfold getTokenOracleData
      rw [hl]
      simp only [if_neg (by omega : ¬ now - e.timestamp < cfg.staleThresholdMs)]
  · intro p c src hres
    unfold freshServe
    rw [hres]
    show cacheFind (cacheSet cache (sym, addr) ⟨p, now, c, src⟩) (sym, addr) = _
    unfold cacheFind cacheSet
    rw [List.find?_cons_of_pos _ (by simp)]

/-- Witness for C5 (amended) at the concrete fixtures: a fresh lookup within
the TTL serves the cached price, a lookup past the staleness threshold falls
through to fresh resolution, and a successful resolution is written through. -/
theorem getTokenOracleData_cache_spec_witness :
    (getTokenOracleData oracleConfigSample 5000 "USDC" "R1" "M1" 1000000
        oracleEnvPyth2 cacheWithUSDC =
      (some ⟨"USDC", "M1", 1000000, 1, none, .fallback⟩, cacheWithUSDC)) ∧
    (getTokenOracleData oracleConfigSample 70000 "USDC" "R1" "M1" 1000000
        oracleEnvPyth2 cacheWithUSDC =
      freshServe oracleConfigSample 70000 "USDC" "R1" "M1" 1000000
        oracleEnvPyth2 cacheWithUSDC) ∧
    (cacheFind (freshServe oracleConfigSample 70000 "USDC" "R1" "M1" 1000000
        oracleEnvPyth2 cacheWithUSDC).2 ("USDC", "R1") =
      some ⟨2, 70000, none, .pyth⟩) :=
  ⟨(getTokenOracleData_cache_spec oracleConfigSample 5000 "USDC" "R1" "M1" 1000000
      oracleEnvPyth2 cacheWithUSDC).1 ⟨1, 0, none, .fallback⟩ (by decide) (by decide) (by decide),
    (getTokenOracleData_cache_spec oracleConfigSample 70000 "USDC" "R1" "M1" 1000000
      oracleEnvPyth2 cacheWithUSDC).2.1 ⟨1, 0, none, .fallback⟩ (by decide) (by decide),
    (getTokenOracleData_cache_spec oracleConfigSample 70000 "USDC" "R1" "M1" 1000000
      oracleEnvPyth2 cacheWithUSDC).2.2 2 none .pyth resolveFresh_pyth2⟩

/-- Helper: `resetCounters` never touches the request queue. -/
theorem resetCounters_queue (now : Nat) (s : RLState) :
    (resetCounters now s).requestQueue = s.requestQueue := by
  simp only [resetCounters]
  split_ifs <;> rfl

/-- Helper: applying `resetCounters` twice at the same clock equals applying
it once. -/
theorem resetCounters_idem (now : Nat) (s : RLState) :
    resetCounters now (resetCounters now s) = resetCounters now s := by
  simp only [resetCounters]
  split_ifs <;> simp_all

/-- Helper: an admission means the filtered window held strictly fewer than
`burstRequests` timestamps and the new queue is that window plus `now`. -/
theorem checkRateLimitStep_granted_inv (cfg : RLConfig) (now : Nat) (s : RLState)
    (pd : Nat) (s1 : RLState)
    (h : checkRateLimitStep cfg now s = .granted pd s1) :
    ((resetCounters now s).requestQueue.filter (fun t => now - t < 1000)).length <
      cfg.burstRequests ∧
    s1.requestQueue =
      (resetCounters now s).requestQueue.filter (fun t => now - t < 1000) ++ [now] := by
  simp only [checkRateLimitStep] at h
  split_ifs at h with h1 h2 h3
  injection h with hpd hs1
  refine ⟨by omega, ?_⟩
  rw [← hs1]

/-- Helper: whenever `checkRateLimit` returns, the returned state holds at
most `burstRequests` timestamps inside the last second of the return time. -/
theorem checkRateLimit_window_bound (cfg : RLConfig) :
    ∀ fuel now s t s1, checkRateLimit cfg fuel now s = some (t, s1) →
      (s1.requestQueue.filter (fun x => t - x < 1000)).length ≤ cfg.burstRequests := by
  intro fuel
  induction fuel with
  | zero =>
    intro now s t s1 h
    exact absurd h (by simp [checkRateLimit])
  | succ n ih =>
    intro now s t s1 h
    simp only [checkRateLimit] at h
    cases hstep : checkRateLimitStep cfg now s with
    | granted pd s2 =>
      simp only [hstep, Option.some.injEq, Prod.mk.injEq] at h
      obtain ⟨rfl, rfl⟩ := h
      obtain ⟨hb, hq⟩ := checkRateLimitStep_granted_inv cfg now s pd s2 hstep
      rw [hq]
      refine le_trans (List.length_filter_le _ _) ?_
      simp only [List.length_append, List.length_cons, List.length_nil]
      omega
    | sleepRetry d s2 =>
      simp only [hstep] at h
      exact ih (now + d) s2 t s1 h

/-- Claim C7: a call observing at least `burstRequests` timestamps inside the
trailing one-second window is never admitted but sleeps and re-checks; at
the moment any call returns, at most `burstRequests` request timestamps lie
within the last second; and once 24 hours have elapsed since the last daily
reset the daily counter is zeroed before the admission check (which always
runs on the reset state). -/
theorem rateLimiter_spec (cfg : RLConfig) (now : Nat) (s : RLState) :
    (cfg.burstRequests ≤ (s.requestQueue.filter (fun t => now - t < 1000)).length →
      (∃ d s1, checkRateLimitStep cfg now s = .sleepRetry d s1) ∧
      ∀ pd s1, checkRateLimitStep cfg now s ≠ .granted pd s1) ∧
    (∀ fuel t s1, checkRateLimit cfg fuel now s = some (t, s1) →
      (s1.requestQueue.filter (fun x => t - x < 1000)).length ≤ cfg.burstRequests) ∧
    ((86400000 ≤ now - s.lastResetDaily → (resetCounters now s).dailyRequests = 0) ∧
      checkRateLimitStep cfg now s = checkRateLimitStep cfg now (resetCounters now s)) := by
  refine ⟨fun hB => ⟨?_, ?_⟩, fun fuel t s1 h => checkRateLimit_window_bound cfg fuel now s t s1 h,
    fun h => ?_, ?_⟩
  · simp only [checkRateLimitStep]
    split_ifs with h1 h2 h3
    · exact ⟨_, _, rfl⟩
    · exact ⟨_, _, rfl⟩
    · exact ⟨_, _, rfl⟩
    · rw [resetCounters_queue] at h3
      omega
  · intro pd s1 hcontra
    obtain ⟨hlt, _⟩ := checkRateLimitStep_granted_inv cfg now s pd s1 hcontra
    rw [resetCounters_queue] at hlt
    omega
  · simp only [resetCounters]
    rw [if_pos h]
    split_ifs <;> rfl
  · simp only [checkRateLimitStep, resetCounters_idem]

/-- Helper: at one admitted call out of fifty thousand the adaptive throttle
adds no delay. -/
theorem adaptiveDelay_one : adaptiveDelay jitoRateLimitConfig 1 1 = 0 := by
  unfold adaptiveDelay jitoRateLimitConfig
  norm_num

/-- Helper: one fresh call through the full rate limiter is admitted
immediately with the expected state. -/
theorem checkRateLimit_fresh_run :
    checkRateLimit jitoRateLimitConfig 1 0 rlStateFresh = some (0, ⟨[0], 1, 1, 0, 0⟩) := by
  have hstep : checkRateLimitStep jitoRateLimitConfig 0 rlStateFresh =
      .granted (adaptiveDelay jitoRateLimitConfig 1 1) ⟨[0], 1, 1, 0, 0⟩ := rfl
  simp only [checkRateLimit, hstep, adaptiveDelay_one]

/-- Witness for C7: the burst-full fixture sleeps instead of admitting, a
24-hour-old daily anchor resets the daily counter to zero, and an admitted
call's returned state holds at most `burstRequests` timestamps in window. -/
theorem rateLimiter_spec_witness :
    ((∃ d s1, checkRateLimitStep jitoRateLimitConfig 1000 rlStateBurstFull = .sleepRetry d s1) ∧
      (∀ pd s1, checkRateLimitStep jitoRateLimitConfig 1000 rlStateBurstFull ≠ .granted pd s1)) ∧
    ((resetCounters 86400005 rlStateDayOld).dailyRequests = 0) ∧
    ((((⟨[0], 1, 1, 0, 0⟩ : RLState)).requestQueue.filter (fun x => 0 - x < 1000)).length ≤
      jitoRateLimitConfig.burstRequests) :=
  ⟨(rateLimiter_spec jitoRateLimitConfig 1000 rlStateBurstFull).1 (by decide),
    (rateLimiter_spec jitoRateLimitConfig 86400005 rlStateDayOld).2.2.1 (by decide),
    (rateLimiter_spec jitoRateLimitConfig 0 rlStateFresh).2.1 1 0 ⟨[0], 1, 1, 0, 0⟩
      checkRateLimit_fresh_run⟩

/-- Claim C9 (code evaluation at the failing input): the `RateLimiter` state
carries no error counts and no breaker flag, and after 100 observed relay
calls — however many of them failed — the next call is admitted with no
delay and proceeds to the network instead of failing fast; the declared
`ERROR_THRESHOLD` and `CIRCUIT_BREAKER_TIMEOUT_MS` constants are read by no
code. -/
theorem circuitBreaker_missing_eval :
    checkRateLimitStep jitoRateLimitConfig 10000000 stateAfter100Calls =
      .granted (adaptiveDelay jitoRateLimitConfig 101 101) ⟨[10000000], 101, 101, 0, 0⟩ ∧
    adaptiveDelay jitoRateLimitConfig 101 101 = 0 := by
  constructor
  · rfl
  · unfold adaptiveDelay jitoRateLimitConfig
    norm_num

/-- Helper: while every poll inside the deadline sees the bundle pending or
unobserved, the polling loop ends in the timeout error. -/
theorem waitForBundleAux_timeout (statusAt : Nat → Option BundleInfo) (timeoutMs : Nat) :
    ∀ fuel i, (∀ j, i ≤ j → 1000 * j ≤ timeoutMs →
        statusAt j = none ∨ ∃ st, statusAt j = some st ∧ st.status = .Pending) →
      waitForBundleAux statusAt timeoutMs i fuel = .timeoutError := by
  intro fuel
  induction fuel with
  | zero => intro i _; rfl
  | succ n ih =>
    intro i h
    simp only [waitForBundleAux]
    by_cases hc : timeoutMs < 1000 * i
    · rw [if_pos hc]
    · rw [if_neg hc]
      rcases h i (le_refl i) (by omega) with hnone | ⟨st, hst, hpend⟩
      · simp only [hnone]
        exact ih (i + 1) (fun j hj => h j (by omega))
      · simp only [hst, hpend]
        rw [if_neg (by simp), if_neg (by simp)]
        exact ih (i + 1) (fun j hj => h j (by omega))

/-- Helper: a landed return reports a status that some poll inside the
deadline actually returned, with state `Landed`. -/
theorem waitForBundleAux_landed (statusAt : Nat → Option BundleInfo) (timeoutMs : Nat) :
    ∀ fuel i st, waitForBundleAux statusAt timeoutMs i fuel = .landed st →
      st.status = .Landed ∧ ∃ j, i ≤ j ∧ 1000 * j ≤ timeoutMs ∧ statusAt j = some st := by
  intro fuel
  induction fuel with
  | zero =>
    intro i st h
    exact absurd h (by simp [waitForBundleAux])
  | succ n ih =>
    intro i st h
    simp only [waitForBundleAux] at h
    by_cases hc : timeoutMs < 1000 * i
    · rw [if_pos hc] at h
      exact absurd h (by simp)
    · rw [if_neg hc] at h
      cases hst : statusAt i with
      | none =>
        simp only [hst] at h
        obtain ⟨h1, j, hj1, hj2, hj3⟩ := ih (i + 1) st h
        exact ⟨h1, j, by omega, hj2, hj3⟩
      | some st2 =>
        simp only [hst] at h
        by_cases hf : st2.status = .Failed
        · rw [if_pos hf] at h
          exact absurd h (by simp)
        · rw [if_neg hf] at h
          by_cases hl : st2.status = .Landed
          · rw [if_pos hl] at h
            have heq : st2 = st := by injection h
            subst heq
            exact ⟨hl, i, le_refl i, by omega, hst⟩
          · rw [if_neg hl] at h
            obtain ⟨h1, j, hj1, hj2, hj3⟩ := ih (i + 1) st h
            exact ⟨h1, j, by omega, hj2, hj3⟩

/-- Helper: a `Failed` status on the first poll raises the failure error. -/
theorem waitForBundle_failed_first (statusAt : Nat → Option BundleInfo) (timeoutMs : Nat)
    (st : BundleInfo) (h0 : statusAt 0 = some st) (hf : st.status = .Failed) :
    waitForBundle statusAt timeoutMs = .failedError := by
  have hk : timeoutMs / 1000 + 2 = (timeoutMs / 1000 + 1) + 1 := rfl
  unfold waitForBundle
  rw [hk]
  simp only [waitForBundleAux, h0]
  rw [if_neg (by omega), if_pos hf]

/-- Claim C8: `waitForBundle` polls once per second; it returns only a status
some in-deadline poll reported as `Landed`; a bundle that stays pending or
unobserved through the deadline raises the timeout error (never a success);
a bundle already `Failed` raises the failure error; and the failure,
timeout, and landed outcomes are pairwise distinct kinds. -/
theorem waitForBundle_spec (statusAt : Nat → Option BundleInfo) (timeoutMs : Nat) :
    (∀ st, waitForBundle statusAt timeoutMs = .landed st →
      st.status = .Landed ∧ ∃ j, 1000 * j ≤ timeoutMs ∧ statusAt j = some st) ∧
    ((∀ j, 1000 * j ≤ timeoutMs →
        statusAt j = none ∨ ∃ st, statusAt j = some st ∧ st.status = .Pending) →
      waitForBundle statusAt timeoutMs = .timeoutError) ∧
    (∀ st, statusAt 0 = some st → st.status = .Failed →
      waitForBundle statusAt timeoutMs = .failedError) ∧
    (WaitOutcome.failedError ≠ WaitOutcome.timeoutError ∧
      ∀ st, WaitOutcome.landed st ≠ WaitOutcome.failedError ∧
        WaitOutcome.landed st ≠ WaitOutcome.timeoutError) := by
  refine ⟨?_, ?_, waitForBundle_failed_first statusAt timeoutMs, ?_, ?_⟩
  · intro st h
    obtain ⟨h1, j, _, hj2, hj3⟩ :=
      waitForBundleAux_landed statusAt timeoutMs (timeoutMs / 1000 + 2) 0 st h
    exact ⟨h1, j, hj2, hj3⟩
  · intro h
    exact waitForBundleAux_timeout statusAt timeoutMs (timeoutMs / 1000 + 2) 0
      (fun j _ hj => h j hj)
  · exact fun h => WaitOutcome.noConfusion h
  · exact fun st => ⟨fun h => WaitOutcome.noConfusion h, fun h => WaitOutcome.noConfusion h⟩

/-- Witness for C8: the pending-then-landed fixture returns the landed
status after three pending polls, the always-pending fixture times out past
its 3-second deadline, and the failed fixture raises the failure error. -/
theorem waitForBundle_spec_witness :
    (bundleLanded.status = .Landed ∧
      ∃ j, 1000 * j ≤ 60000 ∧ statusLandsAfter3 j = some bundleLanded) ∧
    waitForBundle statusAlwaysPending 3000 = .timeoutError ∧
    waitForBundle statusImmediateFail 60000 = .failedError :=
  ⟨(waitForBundle_spec statusLandsAfter3 60000).1 bundleLanded (by decide),
    (waitForBundle_spec statusAlwaysPending 3000).2.1
      (fun j _ => Or.inr ⟨bundlePending, rfl, rfl⟩),
    (waitForBundle_spec statusImmediateFail 60000).2.2.1 bundleFailed rfl rfl⟩

end LiquidationBot
